import Mathlib

/-!
# Falcor resource-binding core: buffers, root signatures, variable buffers

A shallow embedding of `Framework/Source/API/Buffer.h`,
`Framework/Source/API/LowLevel/RootSignature.h` and
`Framework/Source/API/VariablesBuffer.h`.

Machine integers are natural numbers.  A `size_t` of `w` bits is a natural
number below `2 ^ w`; every arithmetic operation the C++ code performs on
`size_t` values is reduced modulo `2 ^ w` explicitly.  The width is a
parameter of the definitions, the concrete evaluations use `w = 64`.
-/

namespace Falcor

/-! ## Buffer.h -/

/-- Addition of two `size_t` values of `w` bits (unsigned, wraps around). -/
def sizeAdd (w a b : Nat) : Nat := (a + b) % 2 ^ w

/-- Subtraction of two `size_t` values of `w` bits (unsigned, wraps around). -/
def sizeSub (w a b : Nat) : Nat := (a + (2 ^ w - b % 2 ^ w)) % 2 ^ w

/-- The value `size_t(-1)`: all `w` bits set. -/
def sizeAllOnes (w : Nat) : Nat := 2 ^ w - 1

/-- The `Buffer::HeapType` enumeration. -/
inductive HeapType where
  | Default
  | Upload
  | Readback
  deriving DecidableEq, Repr

/-- The data members of `Buffer` (the API handle and the mapped pointer are
opaque numbers; the flag enumerations are their underlying integers). -/
structure Buffer where
  mApiHandle : Nat := 0
  mHeapType : HeapType := HeapType.Default
  mBindlessHandle : Nat := 0
  mSize : Nat := 0
  mIsMapped : Bool := false
  mGpuPtr : Nat := 0
  mBindFlags : Nat := 0
  mAccessFlags : Nat := 0
  mpMappedData : Nat := 0
  deriving DecidableEq, Repr

/-- The outcome of `Buffer::adjustSizeOffsetParams`: the returned `bool` and
the values the two reference parameters hold after the call. -/
structure AdjustResult where
  ret : Bool
  size : Nat
  offset : Nat
  deriving DecidableEq, Repr

/-- The method `Buffer::adjustSizeOffsetParams(size_t& size, size_t& offset)`,
for a `size_t` of `w` bits.

```
if (offset >= mSize) { logWarning(...); return false; }
if (offset + size > mSize) { logWarning(...); size = mSize - offset; }
return true;
```
-/
def Buffer.adjustSizeOffsetParams (w : Nat) (b : Buffer) (size offset : Nat) : AdjustResult :=
  if offset ≥ b.mSize then
    { ret := false, size := size, offset := offset }
  else if sizeAdd w offset size > b.mSize then
    { ret := true, size := sizeSub w b.mSize offset, offset := offset }
  else
    { ret := true, size := size, offset := offset }

/-- The call of `adjustSizeOffsetParams` as a transition of the object: the
method is `const` and assigns no member, so the buffer after the call is the
buffer before it; the second component is the outcome of the call. -/
def Buffer.adjustSizeOffsetParamsCall (w : Nat) (b : Buffer) (size offset : Nat) :
    Buffer × AdjustResult :=
  (b, b.adjustSizeOffsetParams w size offset)

/-- The enumeration `Buffer::AccessFlags`.  A value is its underlying `int`,
kept as the natural number with the same bits (two's complement on the width
of `int`); every `int` is a value of the enumeration. -/
structure AccessFlags where
  bits : Nat
  deriving DecidableEq, Repr

/-- The enumerator `AccessFlags::None = 0`. -/
def AccessFlags.None : AccessFlags := ⟨0⟩

/-- The enumerator `AccessFlags::Dynamic = 1`. -/
def AccessFlags.Dynamic : AccessFlags := ⟨1⟩

/-- The enumerator `AccessFlags::MapRead = 2`. -/
def AccessFlags.MapRead : AccessFlags := ⟨2⟩

/-- The enumerator `AccessFlags::MapWrite = 4`. -/
def AccessFlags.MapWrite : AccessFlags := ⟨4⟩

/-- The operator `operator& (Buffer::AccessFlags a, Buffer::AccessFlags b)`:
`static_cast<Buffer::AccessFlags>(static_cast<int>(a) & static_cast<int>(b))`. -/
def AccessFlags.and (a b : AccessFlags) : AccessFlags := ⟨a.bits &&& b.bits⟩

/-- The operator `operator| (Buffer::AccessFlags a, Buffer::AccessFlags b)`:
`static_cast<Buffer::AccessFlags>(static_cast<int>(a) | static_cast<int>(b))`. -/
def AccessFlags.or (a b : AccessFlags) : AccessFlags := ⟨a.bits ||| b.bits⟩

/-- The named flags of `Buffer::AccessFlags` (every enumerator but `None`). -/
def AccessFlags.named : List AccessFlags :=
  [AccessFlags.Dynamic, AccessFlags.MapRead, AccessFlags.MapWrite]

/-- The flags of a list combined with `operator|`, from left to right; `None`
for the empty list. -/
def AccessFlags.combine (xs : List AccessFlags) : AccessFlags :=
  xs.foldl AccessFlags.or AccessFlags.None

/-- The enumeration `Buffer::BindFlags`.  A value is its underlying `int`,
kept as the natural number with the same bits (two's complement on the width
of `int`); every `int` is a value of the enumeration. -/
structure BindFlags where
  bits : Nat
  deriving DecidableEq, Repr

/-- The enumerator `BindFlags::None = 0x0`. -/
def BindFlags.None : BindFlags := ⟨0x0⟩

/-- The enumerator `BindFlags::Vertex = 0x1`. -/
def BindFlags.Vertex : BindFlags := ⟨0x1⟩

/-- The enumerator `BindFlags::Index = 0x2`. -/
def BindFlags.Index : BindFlags := ⟨0x2⟩

/-- The enumerator `BindFlags::Uniform = 0x4`. -/
def BindFlags.Uniform : BindFlags := ⟨0x4⟩

/-- The enumerator `BindFlags::ShaderResource = 0x8`. -/
def BindFlags.ShaderResource : BindFlags := ⟨0x8⟩

/-- The enumerator `BindFlags::StreamOutput = 0x10`. -/
def BindFlags.StreamOutput : BindFlags := ⟨0x10⟩

/-- The enumerator `BindFlags::RenderTarget = 0x20`. -/
def BindFlags.RenderTarget : BindFlags := ⟨0x20⟩

/-- The enumerator `BindFlags::DepthStencil = 0x40`. -/
def BindFlags.DepthStencil : BindFlags := ⟨0x40⟩

/-- The enumerator `BindFlags::UnorderedAccess = 0x80`. -/
def BindFlags.UnorderedAccess : BindFlags := ⟨0x80⟩

/-- The operator `operator& (Buffer::BindFlags a, Buffer::BindFlags b)`:
`static_cast<Buffer::BindFlags>(static_cast<int>(a) & static_cast<int>(b))`. -/
def BindFlags.and (a b : BindFlags) : BindFlags := ⟨a.bits &&& b.bits⟩

/-- The operator `operator| (Buffer::BindFlags a, Buffer::BindFlags b)`:
`static_cast<Buffer::BindFlags>(static_cast<int>(a) | static_cast<int>(b))`. -/
def BindFlags.or (a b : BindFlags) : BindFlags := ⟨a.bits ||| b.bits⟩

/-- The named flags of `Buffer::BindFlags` (every enumerator but `None`). -/
def BindFlags.named : List BindFlags :=
  [BindFlags.Vertex, BindFlags.Index, BindFlags.Uniform, BindFlags.ShaderResource,
   BindFlags.StreamOutput, BindFlags.RenderTarget, BindFlags.DepthStencil,
   BindFlags.UnorderedAccess]

/-- The flags of a list combined with `operator|`, from left to right; `None`
for the empty list. -/
def BindFlags.combine (xs : List BindFlags) : BindFlags :=
  xs.foldl BindFlags.or BindFlags.None

/-- The constructor `Buffer(size, bind, access, heapType)`: the four members
it initialises, every other member at its default member initialiser (in
particular `mGpuPtr = 0`). -/
def Buffer.new (size : Nat) (bind : BindFlags) (access : AccessFlags) (heapType : HeapType) :
    Buffer :=
  { mSize := size, mBindFlags := bind.bits, mAccessFlags := access.bits, mHeapType := heapType }

/-- Modelled from the spec: the body of `Buffer::evict`, which the header only
declares.  Section 4.4 and the doc comment of the declaration: `evict` on a
buffer that was never made resident is silently ignored.  The residency state
is the `mutable` member `mGpuPtr`, 0 until the buffer is made resident; on a
resident buffer `evict` unloads it and clears the pointer. -/
def Buffer.evict (b : Buffer) : Buffer :=
  if b.mGpuPtr = 0 then b else { b with mGpuPtr := 0 }

/-! ## RootSignature.h -/

/-- The `RootSignature::BorderColor` enumeration. -/
inductive BorderColor where
  | TransparentBlack
  | OpaqueBlack
  | OpaqueWhite
  deriving DecidableEq, Repr

/-- The `RootSignature::DescType` enumeration. -/
inductive DescType where
  | SRV
  | UAV
  | CBV
  | Sampler
  deriving DecidableEq, Repr

/-- The struct `RootSignature::ConstantDesc` (with the members of its base
`CommonDesc`); the visibility mask is its underlying integer. -/
structure ConstantDesc where
  regIndex : Nat := 0
  regSpace : Nat := 0
  visibility : Nat
  dwordCount : Nat := 0
  deriving DecidableEq, Repr

/-- The struct `RootSignature::DescriptorDesc`. -/
structure DescriptorDesc where
  regIndex : Nat := 0
  regSpace : Nat := 0
  visibility : Nat
  type : DescType
  deriving DecidableEq, Repr

/-- The struct `RootSignature::SamplerDesc`; the shared sampler pointer is an
opaque number. -/
structure SamplerDesc where
  regIndex : Nat := 0
  regSpace : Nat := 0
  visibility : Nat
  borderColor : BorderColor
  pSampler : Nat
  deriving DecidableEq, Repr

/-- The struct `RootSignature::DescriptorTable::Range`. -/
structure Range where
  type : DescType
  firstRegIndex : Nat
  descCount : Nat
  regSpace : Nat
  offsetFromTableStart : Nat
  deriving DecidableEq, Repr

/-- The class `RootSignature::DescriptorTable`. -/
structure DescriptorTable where
  mRanges : List Range
  mVisibility : Nat
  deriving DecidableEq, Repr

/-- The constructor `DescriptorTable(ShaderVisibility visibility)`: no ranges. -/
def DescriptorTable.new (visibility : Nat) : DescriptorTable :=
  { mRanges := [], mVisibility := visibility }

/-- The constant `DescriptorTable::kAppendOffset = uint32_t(-1)`. -/
def DescriptorTable.kAppendOffset : Nat := 2 ^ 32 - 1

/-- The accessor `DescriptorTable::getRangeCount`. -/
def DescriptorTable.getRangeCount (t : DescriptorTable) : Nat := t.mRanges.length

/-- The accessor `DescriptorTable::getRange` (undefined in C++ past the end,
`none` here). -/
def DescriptorTable.getRange (t : DescriptorTable) (index : Nat) : Option Range :=
  t.mRanges[index]?

/-- Modelled from the spec: the body of `DescriptorTable::addRange`, which the
header only declares.  Section 4.1: the call appends a range to the table;
when `offsetFromTableStart` is the append sentinel, the offset of the new
range is the sum of the descriptor counts of all prior ranges of the table;
ranges are stored in insertion order.  The sum is the sum of natural numbers,
as the spec words it; an explicit offset is stored as given. -/
def DescriptorTable.addRange (t : DescriptorTable) (type : DescType)
    (firstRegIndex descriptorCount : Nat) (regSpace : Nat)
    (offsetFromTableStart : Nat) : DescriptorTable :=
  let offset :=
    if offsetFromTableStart = DescriptorTable.kAppendOffset then
      (t.mRanges.map Range.descCount).sum
    else offsetFromTableStart
  { t with mRanges := t.mRanges ++
      [{ type := type, firstRegIndex := firstRegIndex, descCount := descriptorCount,
         regSpace := regSpace, offsetFromTableStart := offset }] }

/-- The arguments of one `addRange` call. -/
structure RangeArgs where
  type : DescType
  firstRegIndex : Nat
  descriptorCount : Nat
  regSpace : Nat
  offsetFromTableStart : Nat
  deriving DecidableEq, Repr

/-- A sequence of `addRange` calls on one table, in order. -/
def DescriptorTable.addRanges (t : DescriptorTable) (calls : List RangeArgs) : DescriptorTable :=
  calls.foldl (fun acc c =>
    acc.addRange c.type c.firstRegIndex c.descriptorCount c.regSpace c.offsetFromTableStart) t

/-- The layout of a list of ranges is tightly packed: the offset of range `i`
is the sum of the descriptor counts of the ranges before it. -/
def TightlyPacked (ranges : List Range) : Prop :=
  ∀ (i : Nat) (r : Range), ranges[i]? = some r →
    r.offsetFromTableStart = ((ranges.take i).map Range.descCount).sum

/-- The class `RootSignature::Desc`: four independent ordered sequences. -/
structure Desc where
  mConstants : List ConstantDesc := []
  mRootDescriptors : List DescriptorDesc := []
  mDescriptorTables : List DescriptorTable := []
  mSamplers : List SamplerDesc := []
  deriving DecidableEq, Repr

/-- The method `Desc::addDescriptorTable`:
`if (table.getRangeCount()) { mDescriptorTables.push_back(table); } return *this;` -/
def Desc.addDescriptorTable (d : Desc) (table : DescriptorTable) : Desc :=
  if table.getRangeCount ≠ 0 then
    { d with mDescriptorTables := d.mDescriptorTables ++ [table] }
  else d

/-- A sequence of `addDescriptorTable` calls, one per table, in order. -/
def Desc.addDescriptorTables (d : Desc) (tables : List DescriptorTable) : Desc :=
  tables.foldl Desc.addDescriptorTable d

/-- Modelled from the spec: one register binding of a `Desc`, as the
uniqueness check of `RootSignature::create` (whose body the header only
declares) sees it: the descriptor kind with the register index and the
register space.  The descriptor kinds are the four of section 3 (shader
resource, unordered access, constant buffer, sampler), the values of
`DescType`. -/
structure Binding where
  kind : DescType
  regIndex : Nat
  regSpace : Nat
  deriving DecidableEq, Repr

/-- Modelled from the spec: the registers a descriptor range binds: the
`descCount` consecutive registers from `firstRegIndex` on, in the register
space of the range, under the kind of the range. -/
def Range.bindings (r : Range) : List Binding :=
  (List.range r.descCount).map
    (fun k => { kind := r.type, regIndex := r.firstRegIndex + k, regSpace := r.regSpace })

/-- Modelled from the spec: the registers a descriptor table binds, range by
range. -/
def DescriptorTable.bindings (t : DescriptorTable) : List Binding :=
  (t.mRanges.map Range.bindings).flatten

/-- Modelled from the spec: the register bindings of the whole `Desc`, which
the uniqueness check of `RootSignature::create` compares (section 3: register
(index, space) pairs must be unique within a given descriptor kind across the
whole desc; section 4.2: any duplicate register binding within one kind is an
error).  A root constant binds a constant-buffer register, a root descriptor
a register of its `DescType`, a descriptor table the registers of its ranges,
a static sampler a sampler register. -/
def Desc.bindings (d : Desc) : List Binding :=
  d.mConstants.map
      (fun c => { kind := DescType.CBV, regIndex := c.regIndex, regSpace := c.regSpace })
  ++ d.mRootDescriptors.map
      (fun r => { kind := r.type, regIndex := r.regIndex, regSpace := r.regSpace })
  ++ (d.mDescriptorTables.map DescriptorTable.bindings).flatten
  ++ d.mSamplers.map
      (fun s => { kind := DescType.Sampler, regIndex := s.regIndex, regSpace := s.regSpace })

/-- No two different bindings of a `Desc` (of root constants, root
descriptors, descriptor-table ranges or static samplers, in any combination)
have the same register index and register space under the same descriptor
kind. -/
def Desc.UniqueBindings (d : Desc) : Prop :=
  ∀ (i j : Nat) (bi bj : Binding), i ≠ j → d.bindings[i]? = some bi → d.bindings[j]? = some bj →
    ¬ (bi.kind = bj.kind ∧ bi.regIndex = bj.regIndex ∧ bi.regSpace = bj.regSpace)

/-- The class `RootSignature`: the description it was created from and the
root index of every root descriptor, table and root constant (the members
`mDesc`, `mDescriptorIndices`, `mDescTableIndices`, `mConstantIndices`), with,
as section 3 of the spec has it, the byte offset of every root constant block
inside the root-constants region. -/
structure RootSignature where
  mDesc : Desc
  mDescriptorIndices : List Nat
  mDescTableIndices : List Nat
  mConstantIndices : List Nat
  mConstantByteOffset : List Nat
  deriving DecidableEq, Repr

/-- The accessor `RootSignature::getDescriptorTableCount`. -/
def RootSignature.getDescriptorTableCount (r : RootSignature) : Nat :=
  r.mDesc.mDescriptorTables.length

/-- The accessor `RootSignature::getDescriptorTableRootIndex`. -/
def RootSignature.getDescriptorTableRootIndex (r : RootSignature) (index : Nat) : Option Nat :=
  r.mDescTableIndices[index]?

/-- The accessor `RootSignature::getRootDescriptorCount`. -/
def RootSignature.getRootDescriptorCount (r : RootSignature) : Nat :=
  r.mDesc.mRootDescriptors.length

/-- The accessor `RootSignature::getDescriptorRootIndex`. -/
def RootSignature.getDescriptorRootIndex (r : RootSignature) (index : Nat) : Option Nat :=
  r.mDescriptorIndices[index]?

/-- The accessor `RootSignature::getRootConstantCount`. -/
def RootSignature.getRootConstantCount (r : RootSignature) : Nat :=
  r.mDesc.mConstants.length

/-- The accessor `RootSignature::getConstantRootIndex`. -/
def RootSignature.getConstantRootIndex (r : RootSignature) (index : Nat) : Option Nat :=
  r.mConstantIndices[index]?

/-- The accessor `RootSignature::getStaticSamplersCount`. -/
def RootSignature.getStaticSamplersCount (r : RootSignature) : Nat :=
  r.mDesc.mSamplers.length

/-- Every root index of a signature: tables, root descriptors, root constants. -/
def RootSignature.rootIndices (r : RootSignature) : List Nat :=
  r.mDescTableIndices ++ r.mDescriptorIndices ++ r.mConstantIndices

/-- Modelled from the spec: the byte offset that `RootSignature::create`
gives root constant `k` inside the root-constants region (sections 3 and
4.2): the blocks are packed by cumulative dword count, four bytes a dword. -/
def constantByteOffset (constants : List ConstantDesc) (k : Nat) : Nat :=
  4 * ((constants.take k).map ConstantDesc.dwordCount).sum

/-- Modelled from the spec: the body of `RootSignature::create(const Desc&)`,
which the header only declares.  Section 4.2: `create` validates uniqueness of
(registerIndex, registerSpace) per descriptor kind and fails, producing no
object, on a duplicate; otherwise tables get one root index each in desc
order, root descriptors one each after all tables, root constants one per
constant block after all descriptors, packed by cumulative dword count;
static samplers consume no root index. -/
def RootSignature.create (desc : Desc) : Option RootSignature :=
  if desc.bindings.Nodup then
    let nTables := desc.mDescriptorTables.length
    let nDescriptors := desc.mRootDescriptors.length
    let nConstants := desc.mConstants.length
    some
      { mDesc := desc
        mDescTableIndices := List.range nTables
        mDescriptorIndices := (List.range nDescriptors).map (fun j => nTables + j)
        mConstantIndices := (List.range nConstants).map (fun k => nTables + nDescriptors + k)
        mConstantByteOffset := (List.range nConstants).map (constantByteOffset desc.mConstants) }
  else none

/-- The scenario of section 8: one descriptor table of two SRV ranges
(registers 0 and 1, space 0, appended) and one root constant of four dwords
at register 5. -/
def scenarioDesc (visibility : Nat) : Desc :=
  let table := ((DescriptorTable.new visibility).addRange DescType.SRV 0 1 0
      DescriptorTable.kAppendOffset).addRange DescType.SRV 1 1 0 DescriptorTable.kAppendOffset
  { (Desc.addDescriptorTable {} table) with
      mConstants := [{ regIndex := 5, regSpace := 0, visibility := visibility, dwordCount := 4 }] }

/-! ## VariablesBuffer.h -/

/-- Modelled from the spec: one entry of the reflection table of a buffer,
the type `ProgramReflection::BufferReflection` being declared in a header that
is not part of the sources.  Section 3: a variable name with its byte offset,
element stride and element count. -/
structure ReflectionEntry where
  name : String
  byteOffset : Nat
  elementStride : Nat
  elementCount : Nat
  deriving DecidableEq, Repr

/-- The class `VariablesBuffer`, a `Buffer` with a reflection table, the CPU
mirror `mData` and the element geometry.  The mirror has
`mElementSize * mElementCount` bytes (section 3 of the spec). -/
structure VariablesBuffer extends Buffer where
  mpReflector : List ReflectionEntry
  mData : List UInt8
  mDirty : Bool
  mElementCount : Nat
  mElementSize : Nat
  mirror_size : mData.length = mElementSize * mElementCount

/-- The accessor `VariablesBuffer::getElementCount`. -/
def VariablesBuffer.getElementCount (vb : VariablesBuffer) : Nat := vb.mElementCount

/-- The accessor `VariablesBuffer::getElementSize`. -/
def VariablesBuffer.getElementSize (vb : VariablesBuffer) : Nat := vb.mElementSize

/-- Copy `size` bytes of the source memory `src` (byte `i` of the source is
`src i`) over the bytes `start .. start + size - 1` of `dst`; bytes that
would land past the end of `dst` are dropped, the length of `dst` is kept. -/
def copyBytes (dst : List UInt8) (start : Nat) (src : Nat → UInt8) (size : Nat) : List UInt8 :=
  dst.mapIdx (fun i b => if start ≤ i ∧ i < start + size then src (i - start) else b)

/-- Modelled from the spec: the bounds contract shared by `setBlob`,
`setVariable` and `setVariableArray`, whose bodies the header only declares.
Section 4.3: if the end of the write would exceed the extent of the mirror the
write is rejected and the mirror is left unmodified; a successful write
replaces the bytes of the range and marks the buffer dirty. -/
def VariablesBuffer.writeMirror (vb : VariablesBuffer) (start : Nat) (src : Nat → UInt8)
    (size : Nat) : VariablesBuffer :=
  if start + size > vb.mElementSize * vb.mElementCount then vb
  else
    { vb with
        mData := copyBytes vb.mData start src size
        mDirty := true
        mirror_size := by
          have h : vb.mData.length = vb.mElementSize * vb.mElementCount := vb.mirror_size
          simpa [copyBytes] using h }

/-- Modelled from the spec: `VariablesBuffer::setBlob(pSrc, offset, size)`,
the raw-byte write with the bounds contract of `writeMirror`. -/
def VariablesBuffer.setBlob (vb : VariablesBuffer) (pSrc : Nat → UInt8) (offset size : Nat) :
    VariablesBuffer :=
  vb.writeMirror offset pSrc size

/-- The bytes of a value of a type `T` as a source memory. -/
def valueBytes (value : List UInt8) : Nat → UInt8 := fun i => value.getD i 0

/-- Modelled from the spec: `VariablesBuffer::setVariableArray(offset,
elementIndex, pValue, count)`: `count` contiguous elements of `sizeofT` bytes
each are written at the base of element `elementIndex` plus `offset`. -/
def VariablesBuffer.setVariableArray (vb : VariablesBuffer) (offset elementIndex : Nat)
    (sizeofT : Nat) (pValue : Nat → UInt8) (count : Nat) : VariablesBuffer :=
  vb.writeMirror (elementIndex * vb.mElementSize + offset) pValue (count * sizeofT)

/-- Modelled from the spec: `VariablesBuffer::setVariable(offset, elementIndex,
value)`: the bytes of one value are written at the base of element
`elementIndex` plus `offset`. -/
def VariablesBuffer.setVariable (vb : VariablesBuffer) (offset elementIndex : Nat)
    (value : List UInt8) : VariablesBuffer :=
  vb.writeMirror (elementIndex * vb.mElementSize + offset) (valueBytes value) value.length

/-- The number a list of decimal digits writes. -/
def digitsValue (digits : List Char) : Nat :=
  digits.foldl (fun acc c => 10 * acc + (c.toNat - 48)) 0

/-- Modelled from the spec: an array-indexed variable name `path[i]` split
into its path and its index; a name that does not end in an index is its own
path.  The path keeps its dots (the reflection table holds full dotted
paths, section 3). -/
def splitArrayIndex (name : List Char) : List Char × Option Nat :=
  match name.reverse with
  | ']' :: rest =>
    match rest.span Char.isDigit with
    | (d :: ds, '[' :: path) => (path.reverse, some (digitsValue (d :: ds).reverse))
    | _ => (name, none)
  | _ => (name, none)

/-- Modelled from the spec: the path of a variable name, the name without its
trailing array index. -/
def variablePath (varName : String) : String :=
  String.mk (splitArrayIndex varName.toList).1

/-- Modelled from the spec: the trailing array index of a variable name, if
it has one. -/
def variableIndex (varName : String) : Option Nat :=
  (splitArrayIndex varName.toList).2

/-- Modelled from the spec: the resolution of a variable name against the
reflection table (the reflection classes are declared in a header that is not
part of the sources), with the sentinel `kInvalidOffset` for a name that does
not resolve.  Section 4.3 and the naming notes of `VariablesBuffer.h`: the
path selects the entry; an index `i` below the element count of the entry
selects element `i`, `elementStride` bytes apart; a name without index names
a single value, and names the first element of an array only where the
implicit index `[0]` is allowed (`SetVariableArray()` can include N indices,
or N-1 indices; `SetVariable()` must include N indices).  An entry is an
array when its element count is above 1; one dimension is modelled, as the
reflection entry of section 3 has one stride and one count. -/
def VariablesBuffer.resolveVariable (implicitIndex : Bool) (kInvalidOffset : Nat)
    (vb : VariablesBuffer) (varName : String) : Nat :=
  match vb.mpReflector.find? (fun e => e.name == variablePath varName) with
  | none => kInvalidOffset
  | some e =>
    match variableIndex varName with
    | some i =>
      if i < e.elementCount then e.byteOffset + i * e.elementStride else kInvalidOffset
    | none =>
      if implicitIndex = true ∨ e.elementCount ≤ 1 then e.byteOffset else kInvalidOffset

/-- Modelled from the spec: `VariablesBuffer::getVariableOffset(varName)`,
with the sentinel `kInvalidOffset = ProgramReflection::kInvalidLocation` (a
constant of a header that is not part of the sources) as a parameter: the
byte offset the name resolves to, the sentinel when it does not resolve.  The
name can be provided with an implicit array index, as for `setVariableArray`
(doc comment of the declaration). -/
def VariablesBuffer.getVariableOffset (kInvalidOffset : Nat) (vb : VariablesBuffer)
    (varName : String) : Nat :=
  vb.resolveVariable true kInvalidOffset varName

/-- Modelled from the spec: `VariablesBuffer::setVariable(name, elementIndex,
value)`: the name is resolved under the naming rules of `setVariable` (every
array index written), the result is checked against the sentinel, and the
value is written at the resolved offset; a name that does not resolve leaves
the buffer as it is. -/
def VariablesBuffer.setVariableByName (kInvalidOffset : Nat) (vb : VariablesBuffer)
    (name : String) (elementIndex : Nat) (value : List UInt8) : VariablesBuffer :=
  let offset := vb.resolveVariable false kInvalidOffset name
  if offset = kInvalidOffset then vb else vb.setVariable offset elementIndex value

/-- Modelled from the spec: `VariablesBuffer::setVariableArray(name,
elementIndex, pValue, count)`: the name is resolved as by `getVariableOffset`
(the last index may be left out), the result is checked against the sentinel,
and the elements are written at the resolved offset. -/
def VariablesBuffer.setVariableArrayByName (kInvalidOffset : Nat) (vb : VariablesBuffer)
    (name : String) (elementIndex : Nat) (sizeofT : Nat) (pValue : Nat → UInt8) (count : Nat) :
    VariablesBuffer :=
  let offset := vb.getVariableOffset kInvalidOffset name
  if offset = kInvalidOffset then vb
  else vb.setVariableArray offset elementIndex sizeofT pValue count

/-- The mirror of `after` is the mirror of `before` with exactly the bytes
`start .. start + size - 1` replaced by the source `src`. -/
def RangeReplaced (before after : VariablesBuffer) (start : Nat) (src : Nat → UInt8)
    (size : Nat) : Prop :=
  after.mData.length = before.mData.length
  ∧ ∀ i : Nat, i < before.mData.length →
      after.mData[i]?
        = if start ≤ i ∧ i < start + size then some (src (i - start)) else before.mData[i]?

/-- The bounds contract of a write of `size` bytes at `start` that takes
`before` to `after`: a write that would end past the extent of the mirror
leaves every byte of the mirror unchanged, a write that fits replaces exactly
the bytes of its range. -/
def WriteContract (before after : VariablesBuffer) (start : Nat) (src : Nat → UInt8)
    (size : Nat) : Prop :=
  (start + size > before.mElementSize * before.mElementCount → after.mData = before.mData)
  ∧ (start + size ≤ before.mElementSize * before.mElementCount →
      RangeReplaced before after start src size)

/-- A buffer of two elements of four bytes, holding the bytes 0 to 7, with the
variable `x` at byte 1 of an element, two bytes wide. -/
def sampleBuffer : VariablesBuffer :=
  { mSize := 8
    mpReflector := [ { name := "x", byteOffset := 1, elementStride := 2, elementCount := 1 } ]
    mData := [0, 1, 2, 3, 4, 5, 6, 7]
    mDirty := false
    mElementCount := 2
    mElementSize := 4
    mirror_size := rfl }

/-- A source memory holding the bytes 10, 11, 12, ... -/
def sampleSource : Nat → UInt8 := fun i => (10 + i).toUInt8

/-- The sum of two `size_t` values either is exact or lost `2 ^ w`. -/
theorem sizeAdd_eq (w a b : Nat) (ha : a < 2 ^ w) (hb : b < 2 ^ w) :
    sizeAdd w a b = if a + b < 2 ^ w then a + b else a + b - 2 ^ w := by
  unfold sizeAdd
  split
  · next h => exact Nat.mod_eq_of_lt h
  · next h =>
    rw [Nat.mod_eq_sub_mod (by omega)]
    exact Nat.mod_eq_of_lt (by omega)

/-- The difference of two `size_t` values is exact when nothing is borrowed. -/
theorem sizeSub_eq (w a b : Nat) (ha : a < 2 ^ w) (hba : b ≤ a) :
    sizeSub w a b = a - b := by
  unfold sizeSub
  have hb : b % 2 ^ w = b := Nat.mod_eq_of_lt (by omega)
  rw [hb]
  have h : a + (2 ^ w - b) = (a - b) + 2 ^ w := by omega
  rw [h, Nat.add_mod_right]
  exact Nat.mod_eq_of_lt (by omega)

/-- When the sum `offset + size` does not wrap around, an oversized extent is
clamped to `mSize - offset`. -/
theorem adjustSizeOffsetParams_clamps_of_no_wrap (w : Nat) (b : Buffer) (size offset : Nat)
    (hS : b.mSize < 2 ^ w) (hlt : offset < b.mSize) (hover : offset + size > b.mSize)
    (hfit : offset + size < 2 ^ w) :
    b.adjustSizeOffsetParams w size offset
      = { ret := true, size := b.mSize - offset, offset := offset } := by
  have hadd : sizeAdd w offset size = offset + size := by
    unfold sizeAdd
    exact Nat.mod_eq_of_lt hfit
  have hsub : sizeSub w b.mSize offset = b.mSize - offset :=
    sizeSub_eq w b.mSize offset hS (by omega)
  unfold Buffer.adjustSizeOffsetParams
  rw [if_neg (by omega), hadd, if_pos hover, hsub]

/-- C1 (the code at the failing input): on a 64-bit `size_t`, for a buffer of
10 bytes, `offset = 1` and `size = 2^64 - 1` satisfy `offset < mSize` and
`offset + size > mSize` as unbounded integers, yet the call returns true and
leaves `size` at `2^64 - 1` instead of clamping it to `mSize - offset = 9`:
the sum wraps around to 0 and the comparison with `mSize` fails. -/
theorem C1_adjustSizeOffsetParams_wrap_not_clamped :
    (1 < ({ mSize := 10 } : Buffer).mSize
      ∧ 1 + (2 ^ 64 - 1) > ({ mSize := 10 } : Buffer).mSize
      ∧ 1 < 2 ^ 64 ∧ 2 ^ 64 - 1 < 2 ^ 64)
    ∧ ({ mSize := 10 } : Buffer).adjustSizeOffsetParams 64 (2 ^ 64 - 1) 1
        = { ret := true, size := 2 ^ 64 - 1, offset := 1 }
    ∧ (({ mSize := 10 } : Buffer).adjustSizeOffsetParams 64 (2 ^ 64 - 1) 1).size
        ≠ ({ mSize := 10 } : Buffer).mSize - 1 := by
  decide

/-- C2: `adjustSizeOffsetParams` returns false exactly when
`offset >= mSize`, and in that case both reference parameters keep their
input values. -/
theorem C2_adjustSizeOffsetParams_rejects_invalid_start (w : Nat) (b : Buffer)
    (size offset : Nat) :
    ((b.adjustSizeOffsetParams w size offset).ret = false ↔ offset ≥ b.mSize)
    ∧ (offset ≥ b.mSize →
        b.adjustSizeOffsetParams w size offset
          = { ret := false, size := size, offset := offset }) := by
  unfold Buffer.adjustSizeOffsetParams
  by_cases h : offset ≥ b.mSize
  · simp [h]
  · rw [if_neg h]
    constructor
    · split <;> simp [h]
    · intro h2
      exact absurd h2 h

/-- C3 (the code at the failing input): on a 64-bit `size_t`, for a buffer of
16 bytes, the inputs `offset = 8`, `size = 2^64 - 4` make the call return true
with both values unchanged, although `offset + size` exceeds `mSize`: the
returned pair does not describe a byte range inside the buffer. -/
theorem C3_adjustSizeOffsetParams_unsafe_on_wrap :
    (({ mSize := 16 } : Buffer).adjustSizeOffsetParams 64 (2 ^ 64 - 4) 8).ret = true
    ∧ ¬ ((({ mSize := 16 } : Buffer).adjustSizeOffsetParams 64 (2 ^ 64 - 4) 8).offset
          + (({ mSize := 16 } : Buffer).adjustSizeOffsetParams 64 (2 ^ 64 - 4) 8).size
          ≤ ({ mSize := 16 } : Buffer).mSize) := by
  decide

/-- With `size = size_t(-1)` and `offset = 0` the call selects the whole
buffer. -/
theorem adjustSizeOffsetParams_allOnes_offset_zero (w : Nat) (b : Buffer)
    (hS : b.mSize < 2 ^ w) (hpos : 0 < b.mSize) :
    b.adjustSizeOffsetParams w (sizeAllOnes w) 0
      = { ret := true, size := b.mSize, offset := 0 } := by
  have hadd : sizeAdd w 0 (sizeAllOnes w) = 2 ^ w - 1 := by
    unfold sizeAdd sizeAllOnes
    rw [Nat.zero_add]
    exact Nat.mod_eq_of_lt (by omega)
  have hsub : sizeSub w b.mSize 0 = b.mSize := by
    rw [sizeSub_eq w b.mSize 0 hS (Nat.zero_le _)]
    rfl
  unfold Buffer.adjustSizeOffsetParams
  rw [if_neg (by omega), hadd]
  by_cases h : 2 ^ w - 1 > b.mSize
  · rw [if_pos h, hsub]
  · rw [if_neg h]
    have : sizeAllOnes w = b.mSize := by
      unfold sizeAllOnes
      omega
    rw [this]

/-- C4 (the code at the failing input): on a 64-bit `size_t`, for a buffer of
256 bytes and `offset = 16`, the call with `size = size_t(-1)` returns true and
leaves `size` at `2^64 - 1` instead of `mSize - offset = 240`: the sum
`offset + size` wraps around to 15, which is not above `mSize`. -/
theorem C4_adjustSizeOffsetParams_allOnes_not_resolved :
    sizeAllOnes 64 = 2 ^ 64 - 1
    ∧ 16 < ({ mSize := 256 } : Buffer).mSize
    ∧ sizeAdd 64 16 (sizeAllOnes 64) = 15
    ∧ ({ mSize := 256 } : Buffer).adjustSizeOffsetParams 64 (sizeAllOnes 64) 16
        = { ret := true, size := 2 ^ 64 - 1, offset := 16 }
    ∧ (({ mSize := 256 } : Buffer).adjustSizeOffsetParams 64 (sizeAllOnes 64) 16).size
        ≠ ({ mSize := 256 } : Buffer).mSize - 16 := by
  decide

/-- With `size = size_t(-1)` and any `offset` between 1 and `mSize - 1` the
sum wraps around to `offset - 1` and the size is left at `size_t(-1)`. -/
theorem adjustSizeOffsetParams_allOnes_offset_pos (w : Nat) (b : Buffer) (offset : Nat)
    (hS : b.mSize < 2 ^ w) (hpos : 0 < offset) (hlt : offset < b.mSize) :
    b.adjustSizeOffsetParams w (sizeAllOnes w) offset
      = { ret := true, size := sizeAllOnes w, offset := offset } := by
  have hadd : sizeAdd w offset (sizeAllOnes w) = offset - 1 := by
    rw [sizeAdd_eq w offset (sizeAllOnes w) (by omega) (by unfold sizeAllOnes; omega)]
    unfold sizeAllOnes
    rw [if_neg (by omega)]
    omega
  unfold Buffer.adjustSizeOffsetParams
  rw [if_neg (by omega), hadd, if_neg (by omega)]

/-! ## Theorems: RootSignature::Desc::addDescriptorTable -/

/-- Adding one table only touches the table list. -/
theorem addDescriptorTable_frame (d : Desc) (t : DescriptorTable) :
    (d.addDescriptorTable t).mConstants = d.mConstants
    ∧ (d.addDescriptorTable t).mRootDescriptors = d.mRootDescriptors
    ∧ (d.addDescriptorTable t).mSamplers = d.mSamplers := by
  unfold Desc.addDescriptorTable
  split <;> simp

/-- The table list after one call. -/
theorem addDescriptorTable_tables (d : Desc) (t : DescriptorTable) :
    (d.addDescriptorTable t).mDescriptorTables
      = d.mDescriptorTables ++ [t].filter (fun x => decide (x.getRangeCount ≠ 0)) := by
  unfold Desc.addDescriptorTable
  by_cases h : t.getRangeCount ≠ 0
  · simp [h]
  · simp [h]

/-- A sequence of calls appends the non-empty tables in order and keeps the
other three lists. -/
theorem addDescriptorTables_spec (tables : List DescriptorTable) (d : Desc) :
    (d.addDescriptorTables tables).mDescriptorTables
      = d.mDescriptorTables ++ tables.filter (fun x => decide (x.getRangeCount ≠ 0))
    ∧ (d.addDescriptorTables tables).mConstants = d.mConstants
    ∧ (d.addDescriptorTables tables).mRootDescriptors = d.mRootDescriptors
    ∧ (d.addDescriptorTables tables).mSamplers = d.mSamplers := by
  induction tables generalizing d with
  | nil => simp [Desc.addDescriptorTables]
  | cons t ts ih =>
    have hstep : d.addDescriptorTables (t :: ts)
        = (d.addDescriptorTable t).addDescriptorTables ts := rfl
    obtain ⟨h1, h2, h3, h4⟩ := ih (d.addDescriptorTable t)
    obtain ⟨f1, f2, f3⟩ := addDescriptorTable_frame d t
    rw [hstep, h1, h2, h3, h4, f1, f2, f3, addDescriptorTable_tables]
    refine ⟨?_, rfl, rfl, rfl⟩
    rw [List.append_assoc, ← List.filter_append]
    rfl

/-- C5: starting from an empty `Desc`, passing tables one by one to
`addDescriptorTable` stores exactly the sub-sequence of the tables whose
`getRangeCount()` is non-zero, in the order passed; adding a zero-range table
leaves any `Desc` unchanged; every stored table has at least one range; and
`addDescriptorTable` never modifies the constant, root-descriptor and
static-sampler lists. -/
theorem C5_addDescriptorTable_omits_empty_tables :
    (∀ tables : List DescriptorTable,
        (Desc.addDescriptorTables {} tables).mDescriptorTables
          = tables.filter (fun t => decide (t.getRangeCount ≠ 0)))
    ∧ (∀ (d : Desc) (t : DescriptorTable), t.getRangeCount = 0 → d.addDescriptorTable t = d)
    ∧ (∀ (tables : List DescriptorTable) (t : DescriptorTable),
        t ∈ (Desc.addDescriptorTables {} tables).mDescriptorTables → 1 ≤ t.getRangeCount)
    ∧ (∀ (d : Desc) (t : DescriptorTable),
        (d.addDescriptorTable t).mConstants = d.mConstants
        ∧ (d.addDescriptorTable t).mRootDescriptors = d.mRootDescriptors
        ∧ (d.addDescriptorTable t).mSamplers = d.mSamplers) := by
  refine ⟨?_, ?_, ?_, addDescriptorTable_frame⟩
  · intro tables
    rw [(addDescriptorTables_spec tables {}).1]
    rfl
  · intro d t h
    unfold Desc.addDescriptorTable
    simp [h]
  · intro tables t ht
    rw [(addDescriptorTables_spec tables {}).1] at ht
    have hmem : t ∈ tables.filter (fun t => decide (t.getRangeCount ≠ 0)) := by
      simpa using ht
    have hne := (List.mem_filter.mp hmem).2
    have : t.getRangeCount ≠ 0 := by simpa using hne
    omega

/-- C5 on a concrete sequence: an empty table between two non-empty ones is
dropped and the order of the other two is kept. -/
theorem C5_addDescriptorTable_example :
    (Desc.addDescriptorTables {}
        [ (DescriptorTable.new 1).addRange DescType.SRV 0 2 0 DescriptorTable.kAppendOffset,
          DescriptorTable.new 2,
          (DescriptorTable.new 3).addRange DescType.CBV 4 1 0 DescriptorTable.kAppendOffset
        ]).mDescriptorTables
      = [ (DescriptorTable.new 1).addRange DescType.SRV 0 2 0 DescriptorTable.kAppendOffset,
          (DescriptorTable.new 3).addRange DescType.CBV 4 1 0 DescriptorTable.kAppendOffset ] := by
  exact (C5_addDescriptorTable_omits_empty_tables.1 _).trans (by decide)

/-! ## Theorems: RootSignature::DescriptorTable::addRange -/

/-- Appending a range whose offset is the total count so far keeps a layout
tightly packed. -/
theorem TightlyPacked.append (ranges : List Range) (r : Range) (h : TightlyPacked ranges)
    (hr : r.offsetFromTableStart = (ranges.map Range.descCount).sum) :
    TightlyPacked (ranges ++ [r]) := by
  intro i x hx
  by_cases hi : i < ranges.length
  · rw [List.getElem?_append_left hi] at hx
    rw [List.take_append_of_le_length (Nat.le_of_lt hi)]
    exact h i x hx
  · have hle : ranges.length ≤ i := Nat.le_of_not_lt hi
    rw [List.getElem?_append_right hle] at hx
    have hi0 : i - ranges.length = 0 := by
      by_contra hne
      have hpos : 1 ≤ i - ranges.length := Nat.one_le_iff_ne_zero.mpr hne
      have hnone : ([r] : List Range)[i - ranges.length]? = none :=
        List.getElem?_eq_none (by simpa using hpos)
      rw [hnone] at hx
      exact Option.noConfusion hx
    have hieq : i = ranges.length := by omega
    rw [hi0] at hx
    have hxr : x = r := by
      have : some r = some x := by simpa using hx
      exact (Option.some.inj this).symm
    subst hxr
    rw [hieq, List.take_append_of_le_length (Nat.le_refl _), List.take_length]
    exact hr

/-- One appended `addRange` call stores the range last, with the total count
so far as its offset. -/
theorem addRange_append_ranges (t : DescriptorTable) (c : RangeArgs)
    (hc : c.offsetFromTableStart = DescriptorTable.kAppendOffset) :
    (t.addRange c.type c.firstRegIndex c.descriptorCount c.regSpace
        c.offsetFromTableStart).mRanges
      = t.mRanges ++
        [{ type := c.type, firstRegIndex := c.firstRegIndex, descCount := c.descriptorCount,
           regSpace := c.regSpace,
           offsetFromTableStart := (t.mRanges.map Range.descCount).sum }] := by
  unfold DescriptorTable.addRange
  simp [hc]

/-- A sequence of appended `addRange` calls keeps a tightly packed table
tightly packed and stores the ranges of the calls, in order, after the ranges
the table had. -/
theorem addRanges_append_spec (calls : List RangeArgs) (t : DescriptorTable)
    (hcalls : ∀ c ∈ calls, c.offsetFromTableStart = DescriptorTable.kAppendOffset)
    (ht : TightlyPacked t.mRanges) :
    TightlyPacked (t.addRanges calls).mRanges
    ∧ (t.addRanges calls).mRanges.map
          (fun r => (r.type, r.firstRegIndex, r.descCount, r.regSpace))
        = t.mRanges.map (fun r => (r.type, r.firstRegIndex, r.descCount, r.regSpace))
          ++ calls.map (fun c => (c.type, c.firstRegIndex, c.descriptorCount, c.regSpace)) := by
  induction calls generalizing t with
  | nil => exact ⟨ht, by simp [DescriptorTable.addRanges]⟩
  | cons c cs ih =>
    have hc : c.offsetFromTableStart = DescriptorTable.kAppendOffset :=
      hcalls c (List.mem_cons_self c cs)
    have hstep : t.addRanges (c :: cs)
        = (t.addRange c.type c.firstRegIndex c.descriptorCount c.regSpace
            c.offsetFromTableStart).addRanges cs := rfl
    have hranges := addRange_append_ranges t c hc
    have hpacked : TightlyPacked (t.addRange c.type c.firstRegIndex c.descriptorCount
        c.regSpace c.offsetFromTableStart).mRanges := by
      rw [hranges]
      exact TightlyPacked.append _ _ ht rfl
    obtain ⟨h1, h2⟩ := ih _ (fun x hx => hcalls x (List.mem_cons_of_mem c hx)) hpacked
    rw [hstep]
    refine ⟨h1, ?_⟩
    rw [h2, hranges]
    simp

/-- C6: a descriptor table built from a fresh table only by `addRange` calls
with `offsetFromTableStart = kAppendOffset` stores one range per call, in
insertion order (type, first register, descriptor count and register space of
range `i` are those of call `i`), and the offset of range `i` is the sum of
`descCount` over the ranges `0 .. i-1`; range 0 has offset 0. -/
theorem C6_append_ranges_tightly_packed (visibility : Nat) (calls : List RangeArgs)
    (hcalls : ∀ c ∈ calls, c.offsetFromTableStart = DescriptorTable.kAppendOffset) :
    ((DescriptorTable.new visibility).addRanges calls).getRangeCount = calls.length
    ∧ (∀ (i : Nat) (c : RangeArgs), calls[i]? = some c →
        ∃ r : Range, ((DescriptorTable.new visibility).addRanges calls).getRange i = some r
          ∧ r.type = c.type ∧ r.firstRegIndex = c.firstRegIndex
          ∧ r.descCount = c.descriptorCount ∧ r.regSpace = c.regSpace
          ∧ r.offsetFromTableStart
              = ((((DescriptorTable.new visibility).addRanges calls).mRanges.take i).map
                  Range.descCount).sum)
    ∧ (∀ r : Range, ((DescriptorTable.new visibility).addRanges calls).getRange 0 = some r →
        r.offsetFromTableStart = 0) := by
  have hnil : TightlyPacked (DescriptorTable.new visibility).mRanges := by
    intro i r hr
    simp [DescriptorTable.new] at hr
  obtain ⟨hp, hm⟩ := addRanges_append_spec calls (DescriptorTable.new visibility) hcalls hnil
  have hm2 : ((DescriptorTable.new visibility).addRanges calls).mRanges.map
        (fun r => (r.type, r.firstRegIndex, r.descCount, r.regSpace))
      = calls.map (fun c => (c.type, c.firstRegIndex, c.descriptorCount, c.regSpace)) := by
    rw [hm]
    simp [DescriptorTable.new]
  have hlen : ((DescriptorTable.new visibility).addRanges calls).mRanges.length
      = calls.length := by
    have := congrArg List.length hm2
    simpa using this
  refine ⟨hlen, ?_, ?_⟩
  · intro i c hc
    have hi : i < calls.length := by
      by_contra hge
      rw [List.getElem?_eq_none (Nat.le_of_not_lt hge)] at hc
      exact Option.noConfusion hc
    have hi2 : i < ((DescriptorTable.new visibility).addRanges calls).mRanges.length := by
      rw [hlen]
      exact hi
    have hget : ((DescriptorTable.new visibility).addRanges calls).mRanges[i]?
        = some (((DescriptorTable.new visibility).addRanges calls).mRanges[i]) :=
      List.getElem?_eq_getElem hi2
    refine ⟨((DescriptorTable.new visibility).addRanges calls).mRanges[i], hget, ?_⟩
    have hkey := congrArg (fun l => l[i]?) hm2
    simp only [List.getElem?_map, hget, hc, Option.map] at hkey
    have hk := Option.some.inj hkey
    simp only [Prod.mk.injEq] at hk
    exact ⟨hk.1, hk.2.1, hk.2.2.1, hk.2.2.2, hp i _ hget⟩
  · intro r hr
    have := hp 0 r hr
    simpa using this

/-- C6 at a concrete table: three appended ranges of 2, 3 and 4 descriptors
get the offsets 0, 2 and 5. -/
theorem C6_append_ranges_witness :
    (∀ c ∈ ([ ⟨DescType.SRV, 0, 2, 0, DescriptorTable.kAppendOffset⟩,
              ⟨DescType.UAV, 0, 3, 0, DescriptorTable.kAppendOffset⟩,
              ⟨DescType.CBV, 1, 4, 0, DescriptorTable.kAppendOffset⟩ ] : List RangeArgs),
        c.offsetFromTableStart = DescriptorTable.kAppendOffset)
    ∧ ((DescriptorTable.new 7).addRanges
          [ ⟨DescType.SRV, 0, 2, 0, DescriptorTable.kAppendOffset⟩,
            ⟨DescType.UAV, 0, 3, 0, DescriptorTable.kAppendOffset⟩,
            ⟨DescType.CBV, 1, 4, 0, DescriptorTable.kAppendOffset⟩ ]).getRangeCount = 3
    ∧ ((DescriptorTable.new 7).addRanges
          [ ⟨DescType.SRV, 0, 2, 0, DescriptorTable.kAppendOffset⟩,
            ⟨DescType.UAV, 0, 3, 0, DescriptorTable.kAppendOffset⟩,
            ⟨DescType.CBV, 1, 4, 0, DescriptorTable.kAppendOffset⟩ ]).mRanges.map
          Range.offsetFromTableStart = [0, 2, 5] :=
  ⟨by decide,
   (C6_append_ranges_tightly_packed 7 _ (by decide)).1.trans (by decide),
   by decide⟩

/-! ## Theorems: RootSignature::create -/

/-- Two bindings are equal when kind, register index and register space are. -/
theorem Binding.eq_of_fields (a b : Binding) (hk : a.kind = b.kind)
    (hr : a.regIndex = b.regIndex) (hs : a.regSpace = b.regSpace) : a = b := by
  cases a
  cases b
  simp only [Binding.mk.injEq]
  exact ⟨hk, hr, hs⟩

/-- The uniqueness of the bindings of a `Desc` is the absence of duplicates in
its list of bindings, which `create` tests. -/
theorem Desc.uniqueBindings_iff_nodup (d : Desc) : d.UniqueBindings ↔ d.bindings.Nodup := by
  rw [List.nodup_iff_getElem?_ne_getElem?]
  constructor
  · intro h i j hij hj heq
    have hi : i < d.bindings.length := Nat.lt_trans hij hj
    have h1 : d.bindings[i]? = some d.bindings[i] := List.getElem?_eq_getElem hi
    have h2 : d.bindings[j]? = some d.bindings[j] := List.getElem?_eq_getElem hj
    have hsame : d.bindings[i] = d.bindings[j] := by
      rw [h1, h2] at heq
      exact Option.some.inj heq
    exact h i j _ _ (Nat.ne_of_lt hij) h1 h2 ⟨by rw [hsame], by rw [hsame], by rw [hsame]⟩
  · intro h i j bi bj hij hi hj hdup
    have hb : bi = bj := Binding.eq_of_fields bi bj hdup.1 hdup.2.1 hdup.2.2
    have hjl : j < d.bindings.length := by
      by_contra hge
      rw [List.getElem?_eq_none (Nat.le_of_not_lt hge)] at hj
      exact Option.noConfusion hj
    have hil : i < d.bindings.length := by
      by_contra hge
      rw [List.getElem?_eq_none (Nat.le_of_not_lt hge)] at hi
      exact Option.noConfusion hi
    rcases Nat.lt_or_gt_of_ne hij with hlt | hgt
    · exact h i j hlt hjl (by rw [hi, hj, hb])
    · exact h j i hgt hil (by rw [hi, hj, hb])

/-- The root indices `create` assigns are `0, 1, 2, ...` in the order tables,
root descriptors, root constants. -/
theorem rootIndices_eq_range (a b c : Nat) :
    List.range a ++ (List.range b).map (fun j => a + j)
        ++ (List.range c).map (fun k => a + b + k)
      = List.range (a + b + c) := by
  rw [List.range_add, List.range_add]

/-- C7: for every `Desc` whose (register index, register space) pairs are
unique within each kind, `create` succeeds and keeps the description; table
`i` has root index `i`, root descriptor `j` has root index `#tables + j`,
root constant `k` has root index `#tables + #descriptors + k` and starts at
four times the dword count of the constants before it in the constants
region; all root indices are pairwise distinct and there are exactly
`#tables + #descriptors + #constants` of them, so the static samplers consume
none. -/
theorem C7_create_assigns_root_indices (desc : Desc) (huniq : desc.UniqueBindings) :
    ∃ sig : RootSignature, RootSignature.create desc = some sig
      ∧ sig.mDesc = desc
      ∧ (∀ i, i < sig.getDescriptorTableCount → sig.getDescriptorTableRootIndex i = some i)
      ∧ (∀ j, j < sig.getRootDescriptorCount →
          sig.getDescriptorRootIndex j = some (sig.getDescriptorTableCount + j))
      ∧ (∀ k, k < sig.getRootConstantCount →
          sig.getConstantRootIndex k
              = some (sig.getDescriptorTableCount + sig.getRootDescriptorCount + k)
          ∧ sig.mConstantByteOffset[k]?
              = some (4 * ((desc.mConstants.take k).map ConstantDesc.dwordCount).sum))
      ∧ sig.rootIndices.Nodup
      ∧ sig.rootIndices
          = List.range (desc.mDescriptorTables.length + desc.mRootDescriptors.length
              + desc.mConstants.length) := by
  have hnd : desc.bindings.Nodup := (Desc.uniqueBindings_iff_nodup desc).mp huniq
  refine ⟨_, if_pos hnd, rfl, ?_, ?_, ?_, ?_, ?_⟩
  · intro i hi
    simp only [RootSignature.getDescriptorTableCount] at hi
    simp only [RootSignature.getDescriptorTableRootIndex]
    exact List.getElem?_range hi
  · intro j hj
    simp only [RootSignature.getRootDescriptorCount] at hj
    simp only [RootSignature.getDescriptorRootIndex, RootSignature.getDescriptorTableCount,
      List.getElem?_map, List.getElem?_range hj, Option.map]
  · intro k hk
    simp only [RootSignature.getRootConstantCount] at hk
    constructor
    · simp only [RootSignature.getConstantRootIndex, RootSignature.getDescriptorTableCount,
        RootSignature.getRootDescriptorCount, List.getElem?_map, List.getElem?_range hk,
        Option.map]
    · simp only [List.getElem?_map, List.getElem?_range hk, Option.map, constantByteOffset]
  · simp only [RootSignature.rootIndices]
    rw [rootIndices_eq_range]
    exact List.nodup_range _
  · simp only [RootSignature.rootIndices]
    exact rootIndices_eq_range _ _ _

/-- C7 at the scenario of section 8: one table of two SRV ranges and one root
constant of four dwords at register 5 give exactly two root indices, 0 for
the table and 1 for the constant, whose byte offset in the constants region
is 0. -/
theorem C7_create_scenario_witness :
    (scenarioDesc 1).UniqueBindings
    ∧ (RootSignature.create (scenarioDesc 1)).map RootSignature.rootIndices = some [0, 1]
    ∧ (RootSignature.create (scenarioDesc 1)).map RootSignature.mDescTableIndices = some [0]
    ∧ (RootSignature.create (scenarioDesc 1)).map RootSignature.mDescriptorIndices = some []
    ∧ (RootSignature.create (scenarioDesc 1)).map RootSignature.mConstantIndices = some [1]
    ∧ (RootSignature.create (scenarioDesc 1)).map RootSignature.mConstantByteOffset = some [0]
    ∧ (∃ sig : RootSignature, RootSignature.create (scenarioDesc 1) = some sig
        ∧ sig.getDescriptorTableRootIndex 0 = some 0
        ∧ sig.getConstantRootIndex 0 = some 1) := by
  have hu : (scenarioDesc 1).UniqueBindings :=
    (Desc.uniqueBindings_iff_nodup _).mpr (by decide)
  refine ⟨hu, by decide, by decide, by decide, by decide, by decide, ?_⟩
  obtain ⟨sig, hc, hd, ht, _, hk, _, _⟩ := C7_create_assigns_root_indices (scenarioDesc 1) hu
  refine ⟨sig, hc, ht 0 ?_, ?_⟩
  · rw [RootSignature.getDescriptorTableCount, hd]
    decide
  · have h := (hk 0 (by rw [RootSignature.getRootConstantCount, hd]; decide)).1
    rw [RootSignature.getDescriptorTableCount, RootSignature.getRootDescriptorCount, hd] at h
    exact h

/-- C8: when two different register bindings of a `Desc`, whichever entries
they come from (root constants, root descriptors, ranges of descriptor tables,
static samplers), have the same register index and register space under the
same descriptor kind, `create` fails and returns no object. -/
theorem C8_create_rejects_duplicate_bindings (desc : Desc) (i j : Nat) (bi bj : Binding)
    (hij : i ≠ j) (hi : desc.bindings[i]? = some bi) (hj : desc.bindings[j]? = some bj)
    (hkind : bi.kind = bj.kind) (hreg : bi.regIndex = bj.regIndex)
    (hspace : bi.regSpace = bj.regSpace) :
    RootSignature.create desc = none := by
  have hnot : ¬ desc.bindings.Nodup := by
    intro hnd
    exact (Desc.uniqueBindings_iff_nodup desc).mpr hnd i j bi bj hij hi hj ⟨hkind, hreg, hspace⟩
  unfold RootSignature.create
  rw [if_neg hnot]

/-- C8 at concrete descriptions, `create` fails on each: two root constants
at register b3; two descriptor tables that both bind SRV register t0; a
descriptor table whose range covers SRV registers t0 to t3 with a root SRV
descriptor at t2; a root constant at b0 with a root CBV descriptor at b0; a
static sampler at s1 with a sampler range over s0 and s1. -/
theorem C8_create_duplicate_witness :
    RootSignature.create
        { mConstants := [ { regIndex := 3, regSpace := 0, visibility := 1, dwordCount := 4 },
                          { regIndex := 3, regSpace := 0, visibility := 2, dwordCount := 8 } ] }
      = none
    ∧ RootSignature.create
        (Desc.addDescriptorTables {}
          [ (DescriptorTable.new 1).addRange DescType.SRV 0 1 0 DescriptorTable.kAppendOffset,
            (DescriptorTable.new 2).addRange DescType.SRV 0 1 0 DescriptorTable.kAppendOffset ])
      = none
    ∧ RootSignature.create
        { (Desc.addDescriptorTables {}
            [ (DescriptorTable.new 1).addRange DescType.SRV 0 4 0
                DescriptorTable.kAppendOffset ]) with
          mRootDescriptors :=
            [ { regIndex := 2, regSpace := 0, visibility := 1, type := DescType.SRV } ] }
      = none
    ∧ RootSignature.create
        { mConstants := [ { regIndex := 0, regSpace := 0, visibility := 1, dwordCount := 4 } ]
          mRootDescriptors :=
            [ { regIndex := 0, regSpace := 0, visibility := 1, type := DescType.CBV } ] }
      = none
    ∧ RootSignature.create
        { (Desc.addDescriptorTables {}
            [ (DescriptorTable.new 1).addRange DescType.Sampler 0 2 0
                DescriptorTable.kAppendOffset ]) with
          mSamplers :=
            [ { regIndex := 1, regSpace := 0, visibility := 1,
                borderColor := BorderColor.OpaqueBlack, pSampler := 7 } ] }
      = none :=
  ⟨C8_create_rejects_duplicate_bindings _ 0 1
      { kind := DescType.CBV, regIndex := 3, regSpace := 0 }
      { kind := DescType.CBV, regIndex := 3, regSpace := 0 }
      (by decide) (by decide) (by decide) rfl rfl rfl,
   C8_create_rejects_duplicate_bindings _ 0 1
      { kind := DescType.SRV, regIndex := 0, regSpace := 0 }
      { kind := DescType.SRV, regIndex := 0, regSpace := 0 }
      (by decide) (by decide) (by decide) rfl rfl rfl,
   C8_create_rejects_duplicate_bindings _ 0 3
      { kind := DescType.SRV, regIndex := 2, regSpace := 0 }
      { kind := DescType.SRV, regIndex := 2, regSpace := 0 }
      (by decide) (by decide) (by decide) rfl rfl rfl,
   C8_create_rejects_duplicate_bindings _ 0 1
      { kind := DescType.CBV, regIndex := 0, regSpace := 0 }
      { kind := DescType.CBV, regIndex := 0, regSpace := 0 }
      (by decide) (by decide) (by decide) rfl rfl rfl,
   C8_create_rejects_duplicate_bindings _ 1 2
      { kind := DescType.Sampler, regIndex := 1, regSpace := 0 }
      { kind := DescType.Sampler, regIndex := 1, regSpace := 0 }
      (by decide) (by decide) (by decide) rfl rfl rfl⟩

/-! ## Theorems: VariablesBuffer -/

/-- Copying keeps the length of the destination. -/
theorem copyBytes_length (dst : List UInt8) (start : Nat) (src : Nat → UInt8) (size : Nat) :
    (copyBytes dst start src size).length = dst.length := by
  simp [copyBytes]

/-- The bytes of the destination after a copy: the source inside the range,
the old byte outside. -/
theorem copyBytes_getElem? (dst : List UInt8) (start : Nat) (src : Nat → UInt8) (size i : Nat) :
    (copyBytes dst start src size)[i]?
      = if start ≤ i ∧ i < start + size then dst[i]?.map (fun _ => src (i - start))
        else dst[i]? := by
  unfold copyBytes
  rw [List.getElem?_mapIdx]
  by_cases h : start ≤ i ∧ i < start + size
  · rw [if_pos h]
    cases dst[i]? <;> simp [h]
  · rw [if_neg h]
    cases dst[i]? <;> simp [h]

/-- The write primitive of the mirror obeys the bounds contract. -/
theorem writeMirror_contract (vb : VariablesBuffer) (start : Nat) (src : Nat → UInt8)
    (size : Nat) : WriteContract vb (vb.writeMirror start src size) start src size := by
  constructor
  · intro h
    unfold VariablesBuffer.writeMirror
    rw [if_pos h]
  · intro h
    have hnot : ¬ start + size > vb.mElementSize * vb.mElementCount := Nat.not_lt.mpr h
    unfold VariablesBuffer.writeMirror
    rw [if_neg hnot]
    refine ⟨copyBytes_length _ _ _ _, ?_⟩
    intro i hi
    show (copyBytes vb.mData start src size)[i]? = _
    rw [copyBytes_getElem?, List.getElem?_eq_getElem hi]
    by_cases hc : start ≤ i ∧ i < start + size
    · rw [if_pos hc, if_pos hc]
      rfl
    · rw [if_neg hc, if_neg hc]

/-- A name that resolves under the naming rules of `setVariable` resolves to
the same offset under those of `getVariableOffset`. -/
theorem resolveVariable_strict_eq (k : Nat) (vb : VariablesBuffer) (name : String)
    (h : vb.resolveVariable false k name ≠ k) :
    vb.getVariableOffset k name = vb.resolveVariable false k name := by
  unfold VariablesBuffer.getVariableOffset
  unfold VariablesBuffer.resolveVariable at h ⊢
  cases hfind : vb.mpReflector.find? (fun e => e.name == variablePath name) with
  | none => rfl
  | some e =>
    rw [hfind] at h
    cases hidx : variableIndex name with
    | some i => rfl
    | none =>
      rw [hidx] at h
      by_cases hsingle : e.elementCount ≤ 1
      · simp [hsingle]
      · simp [hsingle] at h

/-- A write through a name that resolves under the naming rules of
`setVariable` is the write at the offset `getVariableOffset` gives. -/
theorem setVariableByName_eq (k : Nat) (vb : VariablesBuffer) (name : String)
    (elementIndex : Nat) (value : List UInt8) (h : vb.resolveVariable false k name ≠ k) :
    vb.setVariableByName k name elementIndex value
      = vb.setVariable (vb.getVariableOffset k name) elementIndex value := by
  rw [resolveVariable_strict_eq k vb name h]
  unfold VariablesBuffer.setVariableByName
  simp only [if_neg h]

/-- A write through a name that does not resolve under the naming rules of
`setVariable` leaves the buffer as it is. -/
theorem setVariableByName_unresolved (k : Nat) (vb : VariablesBuffer) (name : String)
    (elementIndex : Nat) (value : List UInt8) (h : vb.resolveVariable false k name = k) :
    vb.setVariableByName k name elementIndex value = vb := by
  unfold VariablesBuffer.setVariableByName
  simp only [if_pos h]

/-- The array form of `setVariableByName_eq`. -/
theorem setVariableArrayByName_eq (k : Nat) (vb : VariablesBuffer) (name : String)
    (elementIndex sizeofT : Nat) (pValue : Nat → UInt8) (count : Nat)
    (h : vb.getVariableOffset k name ≠ k) :
    vb.setVariableArrayByName k name elementIndex sizeofT pValue count
      = vb.setVariableArray (vb.getVariableOffset k name) elementIndex sizeofT pValue count := by
  unfold VariablesBuffer.setVariableArrayByName
  simp only [if_neg h]

/-- C9: for every `VariablesBuffer`, every `setBlob`, `setVariable` and
`setVariableArray` call (by offset, or by a name that the setter resolves)
obeys the bounds contract: when the write would end past
`elementSize * elementCount` the call is ignored and every byte of the mirror
is unchanged; when the range fits, exactly the bytes of the range are
replaced by the source and all other bytes are unchanged.  A call by a name
that the setter does not resolve leaves the buffer as it is. -/
theorem C9_mirror_writes_obey_bounds (vb : VariablesBuffer) :
    (∀ (pSrc : Nat → UInt8) (offset size : Nat),
        WriteContract vb (vb.setBlob pSrc offset size) offset pSrc size)
    ∧ (∀ (offset elementIndex : Nat) (value : List UInt8),
        WriteContract vb (vb.setVariable offset elementIndex value)
          (elementIndex * vb.mElementSize + offset) (valueBytes value) value.length)
    ∧ (∀ (offset elementIndex sizeofT : Nat) (pValue : Nat → UInt8) (count : Nat),
        WriteContract vb (vb.setVariableArray offset elementIndex sizeofT pValue count)
          (elementIndex * vb.mElementSize + offset) pValue (count * sizeofT))
    ∧ (∀ (k : Nat) (name : String) (elementIndex : Nat) (value : List UInt8),
        vb.resolveVariable false k name ≠ k →
        WriteContract vb (vb.setVariableByName k name elementIndex value)
          (elementIndex * vb.mElementSize + vb.getVariableOffset k name)
          (valueBytes value) value.length)
    ∧ (∀ (k : Nat) (name : String) (elementIndex sizeofT : Nat) (pValue : Nat → UInt8)
        (count : Nat), vb.getVariableOffset k name ≠ k →
        WriteContract vb (vb.setVariableArrayByName k name elementIndex sizeofT pValue count)
          (elementIndex * vb.mElementSize + vb.getVariableOffset k name)
          pValue (count * sizeofT))
    ∧ (∀ (k : Nat) (name : String) (elementIndex : Nat) (value : List UInt8),
        vb.resolveVariable false k name = k →
        vb.setVariableByName k name elementIndex value = vb)
    ∧ (∀ (k : Nat) (name : String) (elementIndex sizeofT : Nat) (pValue : Nat → UInt8)
        (count : Nat), vb.getVariableOffset k name = k →
        vb.setVariableArrayByName k name elementIndex sizeofT pValue count = vb) := by
  refine ⟨?_, ?_, ?_, ?_, ?_, ?_, ?_⟩
  · intro pSrc offset size
    exact writeMirror_contract vb offset pSrc size
  · intro offset elementIndex value
    exact writeMirror_contract vb _ _ _
  · intro offset elementIndex sizeofT pValue count
    exact writeMirror_contract vb _ _ _
  · intro k name elementIndex value h
    rw [setVariableByName_eq k vb name elementIndex value h]
    exact writeMirror_contract vb _ _ _
  · intro k name elementIndex sizeofT pValue count h
    rw [setVariableArrayByName_eq k vb name elementIndex sizeofT pValue count h]
    exact writeMirror_contract vb _ _ _
  · intro k name elementIndex value h
    exact setVariableByName_unresolved k vb name elementIndex value h
  · intro k name elementIndex sizeofT pValue count h
    unfold VariablesBuffer.setVariableArrayByName
    simp only [if_pos h]

/-- C9 on a mirror of eight bytes: a blob of four bytes at offset 6 is
ignored, a blob of three bytes at offset 2 replaces the bytes 2, 3, 4 only,
and a two-byte variable at offset 3 of element 1 would end at byte 9 and is
ignored. -/
theorem C9_mirror_writes_witness :
    (sampleBuffer.setBlob sampleSource 6 4).mData = [0, 1, 2, 3, 4, 5, 6, 7]
    ∧ (sampleBuffer.setBlob sampleSource 2 3).mData = [0, 1, 10, 11, 12, 5, 6, 7]
    ∧ (sampleBuffer.setVariable 3 1 [20, 21]).mData = [0, 1, 2, 3, 4, 5, 6, 7]
    ∧ (sampleBuffer.setVariable 1 1 [20, 21]).mData = [0, 1, 2, 3, 4, 20, 21, 7] :=
  ⟨((C9_mirror_writes_obey_bounds sampleBuffer).1 sampleSource 6 4).1 (by decide),
   by decide,
   ((C9_mirror_writes_obey_bounds sampleBuffer).2.1 3 1 [20, 21]).1 (by decide),
   by decide⟩

/-- The wrapped sum of two `size_t` values never exceeds their sum. -/
theorem sizeAdd_le (w a b : Nat) : sizeAdd w a b ≤ a + b := by
  unfold sizeAdd
  exact Nat.mod_le _ _

/-- A range that fits is returned as it is. -/
theorem adjustSizeOffsetParams_of_fits (w : Nat) (b : Buffer) (size offset : Nat)
    (hlt : offset < b.mSize) (hfit : offset + size ≤ b.mSize) :
    b.adjustSizeOffsetParams w size offset
      = { ret := true, size := size, offset := offset } := by
  have hadd := sizeAdd_le w offset size
  unfold Buffer.adjustSizeOffsetParams
  rw [if_neg (by omega), if_neg (by omega)]

/-- The three outcomes of a call: rejected, clamped to `mSize - offset` (only
when that is no more than the size passed), or left as passed. -/
theorem adjustSizeOffsetParams_cases (w : Nat) (b : Buffer) (size offset : Nat)
    (hS : b.mSize < 2 ^ w) :
    (offset ≥ b.mSize
        ∧ b.adjustSizeOffsetParams w size offset
            = { ret := false, size := size, offset := offset })
    ∨ (offset < b.mSize ∧ b.mSize - offset ≤ size
        ∧ b.adjustSizeOffsetParams w size offset
            = { ret := true, size := b.mSize - offset, offset := offset })
    ∨ (offset < b.mSize ∧ sizeAdd w offset size ≤ b.mSize
        ∧ b.adjustSizeOffsetParams w size offset
            = { ret := true, size := size, offset := offset }) := by
  by_cases h1 : offset ≥ b.mSize
  · left
    refine ⟨h1, ?_⟩
    unfold Buffer.adjustSizeOffsetParams
    rw [if_pos h1]
  · have hlt : offset < b.mSize := Nat.lt_of_not_le h1
    by_cases h2 : sizeAdd w offset size > b.mSize
    · right
      left
      have hadd := sizeAdd_le w offset size
      have hsub : sizeSub w b.mSize offset = b.mSize - offset :=
        sizeSub_eq w b.mSize offset hS (Nat.le_of_lt hlt)
      refine ⟨hlt, by omega, ?_⟩
      unfold Buffer.adjustSizeOffsetParams
      rw [if_neg h1, if_pos h2, hsub]
    · right
      right
      refine ⟨hlt, Nat.le_of_not_lt h2, ?_⟩
      unfold Buffer.adjustSizeOffsetParams
      rw [if_neg h1, if_neg h2]

/-- C15: for every buffer whose size is a `size_t` and all `offset`, `size`:
when `offset < mSize` and `offset + size <= mSize` (the sum as an unbounded
integer) the call returns true and leaves both values unchanged; and applying
the call a second time to the output of any call that returned true changes
nothing. -/
theorem C15_adjustSizeOffsetParams_identity_on_fitting (w : Nat) (b : Buffer)
    (size offset : Nat) (hS : b.mSize < 2 ^ w) :
    (offset < b.mSize → offset + size ≤ b.mSize →
        b.adjustSizeOffsetParams w size offset
          = { ret := true, size := size, offset := offset })
    ∧ ((b.adjustSizeOffsetParams w size offset).ret = true →
        b.adjustSizeOffsetParams w (b.adjustSizeOffsetParams w size offset).size
            (b.adjustSizeOffsetParams w size offset).offset
          = b.adjustSizeOffsetParams w size offset) := by
  refine ⟨adjustSizeOffsetParams_of_fits w b size offset, ?_⟩
  intro hret
  rcases adjustSizeOffsetParams_cases w b size offset hS with
    ⟨_, h⟩ | ⟨hlt, _, h⟩ | ⟨_, _, h⟩
  · rw [h] at hret
    exact Bool.noConfusion hret
  · rw [h]
    exact adjustSizeOffsetParams_of_fits w b (b.mSize - offset) offset hlt (by omega)
  · rw [h]
    exact h

/-- C15 on a buffer of 100 bytes with a 64-bit `size_t`: the range of 30
bytes at offset 20 is returned as it is, and so is the output of the clamped
call for 200 bytes at offset 20 when passed in again. -/
theorem C15_adjustSizeOffsetParams_identity_witness :
    ({ mSize := 100 } : Buffer).adjustSizeOffsetParams 64 30 20
        = { ret := true, size := 30, offset := 20 }
    ∧ ({ mSize := 100 } : Buffer).adjustSizeOffsetParams 64 200 20
        = { ret := true, size := 80, offset := 20 }
    ∧ ({ mSize := 100 } : Buffer).adjustSizeOffsetParams 64
          (({ mSize := 100 } : Buffer).adjustSizeOffsetParams 64 200 20).size
          (({ mSize := 100 } : Buffer).adjustSizeOffsetParams 64 200 20).offset
        = ({ mSize := 100 } : Buffer).adjustSizeOffsetParams 64 200 20 :=
  ⟨(C15_adjustSizeOffsetParams_identity_on_fitting 64 { mSize := 100 } 30 20 (by decide)).1
      (by decide) (by decide),
   by decide,
   (C15_adjustSizeOffsetParams_identity_on_fitting 64 { mSize := 100 } 200 20 (by decide)).2
      (by decide)⟩

/-- C16: for every buffer whose size is a `size_t` and all inputs `offset`
and `size`, wrapping sums included: the offset after the call is the offset
before, the size after the call is at most the size before, and the buffer,
its `mSize` included, is the same after the call. -/
theorem C16_adjustSizeOffsetParams_only_shrinks (w : Nat) (b : Buffer) (size offset : Nat)
    (hS : b.mSize < 2 ^ w) :
    (b.adjustSizeOffsetParams w size offset).offset = offset
    ∧ (b.adjustSizeOffsetParams w size offset).size ≤ size
    ∧ (b.adjustSizeOffsetParamsCall w size offset).1 = b
    ∧ (b.adjustSizeOffsetParamsCall w size offset).1.mSize = b.mSize
    ∧ (b.adjustSizeOffsetParamsCall w size offset).2 = b.adjustSizeOffsetParams w size offset := by
  refine ⟨?_, ?_, rfl, rfl, rfl⟩
  · rcases adjustSizeOffsetParams_cases w b size offset hS with
      ⟨_, h⟩ | ⟨_, _, h⟩ | ⟨_, _, h⟩ <;> rw [h]
  · rcases adjustSizeOffsetParams_cases w b size offset hS with
      ⟨_, h⟩ | ⟨_, hle, h⟩ | ⟨_, _, h⟩
    · rw [h]
    · rw [h]
      exact hle
    · rw [h]

/-- C16 at three inputs on a 64-bit `size_t`: a clamped call (size 200 to
80), a call whose sum wraps around (size unchanged) and a rejected call. -/
theorem C16_adjustSizeOffsetParams_shrinks_witness :
    (({ mSize := 100 } : Buffer).adjustSizeOffsetParams 64 200 20).size = 80
    ∧ (({ mSize := 100 } : Buffer).adjustSizeOffsetParams 64 (2 ^ 64 - 1) 20).size ≤ 2 ^ 64 - 1
    ∧ (({ mSize := 100 } : Buffer).adjustSizeOffsetParams 64 (2 ^ 64 - 1) 20).offset = 20
    ∧ (({ mSize := 100 } : Buffer).adjustSizeOffsetParams 64 5 100).size = 5
    ∧ (({ mSize := 100 } : Buffer).adjustSizeOffsetParamsCall 64 200 20).1.mSize = 100 :=
  ⟨by decide,
   (C16_adjustSizeOffsetParams_only_shrinks 64 { mSize := 100 } (2 ^ 64 - 1) 20 (by decide)).2.1,
   (C16_adjustSizeOffsetParams_only_shrinks 64 { mSize := 100 } (2 ^ 64 - 1) 20 (by decide)).1,
   by decide,
   (C16_adjustSizeOffsetParams_only_shrinks 64 { mSize := 100 } 200 20 (by decide)).2.2.2.1⟩

/-! ## Theorems: Buffer::evict -/

/-- C12: a buffer on which `makeResident()` was never called has its resident
GPU pointer at the initial value 0 (as every buffer has straight from the
constructor); on every such buffer `evict()` returns the buffer with every
field unchanged, the resident GPU pointer included, so that it is still not
resident afterwards and any number of further `evict()` calls change nothing
either. -/
theorem C12_evict_without_residency_is_noop :
    (∀ (size : Nat) (bind : BindFlags) (access : AccessFlags) (heapType : HeapType),
        (Buffer.new size bind access heapType).mGpuPtr = 0
        ∧ (Buffer.new size bind access heapType).evict = Buffer.new size bind access heapType)
    ∧ (∀ b : Buffer, b.mGpuPtr = 0 → b.evict = b ∧ b.evict.mGpuPtr = 0)
    ∧ (∀ (b : Buffer) (n : Nat), b.mGpuPtr = 0 → Nat.iterate Buffer.evict n b = b) := by
  have hnoop : ∀ b : Buffer, b.mGpuPtr = 0 → b.evict = b := by
    intro b hb
    unfold Buffer.evict
    rw [if_pos hb]
  refine ⟨?_, ?_, ?_⟩
  · intro size bind access heapType
    exact ⟨rfl, hnoop _ rfl⟩
  · intro b hb
    rw [hnoop b hb]
    exact ⟨rfl, hb⟩
  · intro b n hb
    induction n with
    | zero => rfl
    | succ k ih =>
      rw [Function.iterate_succ_apply, hnoop b hb]
      exact ih

/-- C12 on a buffer of 64 bytes straight from the constructor: `evict()`
returns it unchanged, and so do three calls in a row. -/
theorem C12_evict_witness :
    (Buffer.new 64 BindFlags.Vertex AccessFlags.Dynamic HeapType.Default).evict
        = Buffer.new 64 BindFlags.Vertex AccessFlags.Dynamic HeapType.Default
    ∧ Nat.iterate Buffer.evict 3
          (Buffer.new 64 BindFlags.Vertex AccessFlags.Dynamic HeapType.Default)
        = Buffer.new 64 BindFlags.Vertex AccessFlags.Dynamic HeapType.Default :=
  ⟨(C12_evict_without_residency_is_noop.2.1 _ rfl).1,
   C12_evict_without_residency_is_noop.2.2 _ 3 rfl⟩

/-! ## Theorems: the flag operators -/

/-- Absorption for the bitwise operations on natural numbers. -/
theorem lor_land_self (a b : Nat) : (a ||| b) &&& a = a := by
  apply Nat.eq_of_testBit_eq
  intro i
  rw [Nat.testBit_land, Nat.testBit_lor]
  cases a.testBit i <;> cases b.testBit i <;> rfl

/-- Bitwise AND on the right distributes over bitwise OR. -/
theorem lor_land_distrib_right (a b c : Nat) : (a ||| b) &&& c = (a &&& c) ||| (b &&& c) := by
  rw [Nat.land_comm, Nat.and_or_distrib_left, Nat.land_comm c a, Nat.land_comm c b]

/-- Bitwise OR and AND of two `int` bit patterns of `n` bits are `int` bit
patterns of `n` bits. -/
theorem flag_bits_closed (n a b : Nat) (ha : a < 2 ^ n) (hb : b < 2 ^ n) :
    a ||| b < 2 ^ n ∧ a &&& b < 2 ^ n :=
  ⟨Nat.or_lt_two_pow ha hb, Nat.and_lt_two_pow a hb⟩

/-- C13: for all `Buffer::BindFlags` values, and likewise all
`Buffer::AccessFlags` values, `operator|` and `operator&` are bitwise OR and
AND of the underlying integers; both are commutative, associative and
idempotent, `None` is the identity of `|` and the annihilator of `&`,
absorption `(a | b) & a == a` holds, and `&` distributes over `|`. -/
theorem C13_flag_operators_bitset_algebra :
    (∀ a b c : BindFlags,
        (a.or b).bits = a.bits ||| b.bits ∧ (a.and b).bits = a.bits &&& b.bits
        ∧ a.or b = b.or a ∧ a.and b = b.and a
        ∧ (a.or b).or c = a.or (b.or c) ∧ (a.and b).and c = a.and (b.and c)
        ∧ a.or a = a ∧ a.and a = a
        ∧ a.or BindFlags.None = a ∧ BindFlags.None.or a = a
        ∧ a.and BindFlags.None = BindFlags.None ∧ BindFlags.None.and a = BindFlags.None
        ∧ (a.or b).and a = a
        ∧ a.and (b.or c) = (a.and b).or (a.and c)
        ∧ (a.or b).and c = (a.and c).or (b.and c))
    ∧ (∀ a b c : AccessFlags,
        (a.or b).bits = a.bits ||| b.bits ∧ (a.and b).bits = a.bits &&& b.bits
        ∧ a.or b = b.or a ∧ a.and b = b.and a
        ∧ (a.or b).or c = a.or (b.or c) ∧ (a.and b).and c = a.and (b.and c)
        ∧ a.or a = a ∧ a.and a = a
        ∧ a.or AccessFlags.None = a ∧ AccessFlags.None.or a = a
        ∧ a.and AccessFlags.None = AccessFlags.None
        ∧ AccessFlags.None.and a = AccessFlags.None
        ∧ (a.or b).and a = a
        ∧ a.and (b.or c) = (a.and b).or (a.and c)
        ∧ (a.or b).and c = (a.and c).or (b.and c)) := by
  constructor
  · intro a b c
    cases a with | mk x => ?_
    cases b with | mk y => ?_
    cases c with | mk z => ?_
    exact ⟨rfl, rfl, congrArg BindFlags.mk (Nat.lor_comm x y), congrArg BindFlags.mk (Nat.land_comm x y),
      congrArg BindFlags.mk (Nat.lor_assoc x y z), congrArg BindFlags.mk (Nat.land_assoc x y z),
      congrArg BindFlags.mk (Nat.or_self x), congrArg BindFlags.mk (Nat.and_self x),
      congrArg BindFlags.mk (Nat.or_zero x), congrArg BindFlags.mk (Nat.zero_or x),
      congrArg BindFlags.mk (Nat.and_zero x), congrArg BindFlags.mk (Nat.zero_and x),
      congrArg BindFlags.mk (lor_land_self x y), congrArg BindFlags.mk (Nat.and_or_distrib_left x y z),
      congrArg BindFlags.mk (lor_land_distrib_right x y z)⟩
  · intro a b c
    cases a with | mk x => ?_
    cases b with | mk y => ?_
    cases c with | mk z => ?_
    exact ⟨rfl, rfl, congrArg AccessFlags.mk (Nat.lor_comm x y), congrArg AccessFlags.mk (Nat.land_comm x y),
      congrArg AccessFlags.mk (Nat.lor_assoc x y z), congrArg AccessFlags.mk (Nat.land_assoc x y z),
      congrArg AccessFlags.mk (Nat.or_self x), congrArg AccessFlags.mk (Nat.and_self x),
      congrArg AccessFlags.mk (Nat.or_zero x), congrArg AccessFlags.mk (Nat.zero_or x),
      congrArg AccessFlags.mk (Nat.and_zero x), congrArg AccessFlags.mk (Nat.zero_and x),
      congrArg AccessFlags.mk (lor_land_self x y), congrArg AccessFlags.mk (Nat.and_or_distrib_left x y z),
      congrArg AccessFlags.mk (lor_land_distrib_right x y z)⟩

/-- C13 at concrete values: `Vertex | ShaderResource` is 0x9, its
intersection with `Vertex` is `Vertex`, and a value with the sign bit of a
32-bit `int` set obeys the same laws. -/
theorem C13_flag_operators_witness :
    (BindFlags.Vertex.or BindFlags.ShaderResource).bits = 0x9
    ∧ (BindFlags.Vertex.or BindFlags.ShaderResource).and BindFlags.Vertex = BindFlags.Vertex
    ∧ ((⟨0x80000001⟩ : BindFlags).or BindFlags.Index).and ⟨0x80000001⟩ = ⟨0x80000001⟩
    ∧ (AccessFlags.MapRead.or AccessFlags.MapWrite).bits = 6 :=
  ⟨by decide,
   (C13_flag_operators_bitset_algebra.1 BindFlags.Vertex BindFlags.ShaderResource
      BindFlags.None).2.2.2.2.2.2.2.2.2.2.2.2.1,
   (C13_flag_operators_bitset_algebra.1 ⟨0x80000001⟩ BindFlags.Index
      BindFlags.None).2.2.2.2.2.2.2.2.2.2.2.2.1,
   by decide⟩

/-- Two named flags of `Buffer::BindFlags` intersect in the flag itself when they
are the same flag and in `None` otherwise: the named flags are distinct
single bits. -/
theorem bindFlags_named_and_named :
    ∀ x ∈ BindFlags.named, ∀ f ∈ BindFlags.named,
      x.and f = if f = x then f else BindFlags.None := by
  decide

/-- The intersection of a flag with a left-to-right union: the part of the
starting value, joined with the flag when the list holds it. -/
theorem bindFlags_foldl_or_and (xs : List BindFlags) (acc f : BindFlags)
    (hxs : ∀ x ∈ xs, x ∈ BindFlags.named) (hf : f ∈ BindFlags.named) :
    (xs.foldl BindFlags.or acc).and f
      = (acc.and f).or (if f ∈ xs then f else BindFlags.None) := by
  induction xs generalizing acc with
  | nil =>
    cases acc with | mk a => ?_
    cases f with | mk g => ?_
    exact congrArg BindFlags.mk (Nat.or_zero (a &&& g)).symm
  | cons x rest ih =>
    have hx : x ∈ BindFlags.named := hxs x (List.mem_cons_self x rest)
    have hrest : ∀ y ∈ rest, y ∈ BindFlags.named :=
      fun y hy => hxs y (List.mem_cons_of_mem x hy)
    have hstep : (x :: rest).foldl BindFlags.or acc = rest.foldl BindFlags.or (acc.or x) := rfl
    have hdistrib : (acc.or x).and f = (acc.and f).or (x.and f) := by
      cases acc with | mk a => ?_
      cases x with | mk y => ?_
      cases f with | mk g => ?_
      exact congrArg BindFlags.mk (lor_land_distrib_right a y g)
    have hassoc : ∀ p q r : BindFlags, (p.or q).or r = p.or (q.or r) := by
      intro p q r
      cases p with | mk a => ?_
      cases q with | mk y => ?_
      cases r with | mk g => ?_
      exact congrArg BindFlags.mk (Nat.lor_assoc a y g)
    have hself : f.or f = f := by
      cases f with | mk g => ?_
      exact congrArg BindFlags.mk (Nat.or_self g)
    have hnone : ∀ p : BindFlags, p.or BindFlags.None = p ∧ BindFlags.None.or p = p := by
      intro p
      cases p with | mk a => ?_
      exact ⟨congrArg BindFlags.mk (Nat.or_zero a), congrArg BindFlags.mk (Nat.zero_or a)⟩
    rw [hstep, ih (acc.or x) hrest, hdistrib, hassoc, bindFlags_named_and_named x hx f hf]
    congr 1
    by_cases hfx : f = x
    · have hin : f ∈ x :: rest := by
        rw [hfx]
        exact List.mem_cons_self x rest
      rw [if_pos hfx, if_pos hin]
      by_cases hmem : f ∈ rest
      · rw [if_pos hmem, hself]
      · rw [if_neg hmem, (hnone f).1]
    · rw [if_neg hfx, (hnone _).2]
      by_cases hmem : f ∈ rest
      · rw [if_pos hmem, if_pos (List.mem_cons_of_mem x hmem)]
      · have hnot : f ∉ x :: rest := by
          intro h
          rcases List.mem_cons.mp h with h1 | h2
          · exact hfx h1
          · exact hmem h2
        rw [if_neg hmem, if_neg hnot]

/-- The membership test on a combination of named `Buffer::BindFlags` flags is
exact. -/
theorem bindFlags_combine_and (xs : List BindFlags) (f : BindFlags)
    (hxs : ∀ x ∈ xs, x ∈ BindFlags.named) (hf : f ∈ BindFlags.named) :
    (BindFlags.combine xs).and f = if f ∈ xs then f else BindFlags.None := by
  unfold BindFlags.combine
  rw [bindFlags_foldl_or_and xs BindFlags.None f hxs hf]
  have hzero : BindFlags.None.and f = BindFlags.None := by
    cases f with | mk g => ?_
    exact congrArg BindFlags.mk (Nat.zero_and g)
  rw [hzero]
  cases (if f ∈ xs then f else BindFlags.None) with | mk g => ?_
  exact congrArg BindFlags.mk (Nat.zero_or g)

/-- Two named flags of `Buffer::AccessFlags` intersect in the flag itself when they
are the same flag and in `None` otherwise: the named flags are distinct
single bits. -/
theorem accessFlags_named_and_named :
    ∀ x ∈ AccessFlags.named, ∀ f ∈ AccessFlags.named,
      x.and f = if f = x then f else AccessFlags.None := by
  decide

/-- The intersection of a flag with a left-to-right union: the part of the
starting value, joined with the flag when the list holds it. -/
theorem accessFlags_foldl_or_and (xs : List AccessFlags) (acc f : AccessFlags)
    (hxs : ∀ x ∈ xs, x ∈ AccessFlags.named) (hf : f ∈ AccessFlags.named) :
    (xs.foldl AccessFlags.or acc).and f
      = (acc.and f).or (if f ∈ xs then f else AccessFlags.None) := by
  induction xs generalizing acc with
  | nil =>
    cases acc with | mk a => ?_
    cases f with | mk g => ?_
    exact congrArg AccessFlags.mk (Nat.or_zero (a &&& g)).symm
  | cons x rest ih =>
    have hx : x ∈ AccessFlags.named := hxs x (List.mem_cons_self x rest)
    have hrest : ∀ y ∈ rest, y ∈ AccessFlags.named :=
      fun y hy => hxs y (List.mem_cons_of_mem x hy)
    have hstep : (x :: rest).foldl AccessFlags.or acc = rest.foldl AccessFlags.or (acc.or x) := rfl
    have hdistrib : (acc.or x).and f = (acc.and f).or (x.and f) := by
      cases acc with | mk a => ?_
      cases x with | mk y => ?_
      cases f with | mk g => ?_
      exact congrArg AccessFlags.mk (lor_land_distrib_right a y g)
    have hassoc : ∀ p q r : AccessFlags, (p.or q).or r = p.or (q.or r) := by
      intro p q r
      cases p with | mk a => ?_
      cases q with | mk y => ?_
      cases r with | mk g => ?_
      exact congrArg AccessFlags.mk (Nat.lor_assoc a y g)
    have hself : f.or f = f := by
      cases f with | mk g => ?_
      exact congrArg AccessFlags.mk (Nat.or_self g)
    have hnone : ∀ p : AccessFlags, p.or AccessFlags.None = p ∧ AccessFlags.None.or p = p := by
      intro p
      cases p with | mk a => ?_
      exact ⟨congrArg AccessFlags.mk (Nat.or_zero a), congrArg AccessFlags.mk (Nat.zero_or a)⟩
    rw [hstep, ih (acc.or x) hrest, hdistrib, hassoc, accessFlags_named_and_named x hx f hf]
    congr 1
    by_cases hfx : f = x
    · have hin : f ∈ x :: rest := by
        rw [hfx]
        exact List.mem_cons_self x rest
      rw [if_pos hfx, if_pos hin]
      by_cases hmem : f ∈ rest
      · rw [if_pos hmem, hself]
      · rw [if_neg hmem, (hnone f).1]
    · rw [if_neg hfx, (hnone _).2]
      by_cases hmem : f ∈ rest
      · rw [if_pos hmem, if_pos (List.mem_cons_of_mem x hmem)]
      · have hnot : f ∉ x :: rest := by
          intro h
          rcases List.mem_cons.mp h with h1 | h2
          · exact hfx h1
          · exact hmem h2
        rw [if_neg hmem, if_neg hnot]

/-- The membership test on a combination of named `Buffer::AccessFlags` flags is
exact. -/
theorem accessFlags_combine_and (xs : List AccessFlags) (f : AccessFlags)
    (hxs : ∀ x ∈ xs, x ∈ AccessFlags.named) (hf : f ∈ AccessFlags.named) :
    (AccessFlags.combine xs).and f = if f ∈ xs then f else AccessFlags.None := by
  unfold AccessFlags.combine
  rw [accessFlags_foldl_or_and xs AccessFlags.None f hxs hf]
  have hzero : AccessFlags.None.and f = AccessFlags.None := by
    cases f with | mk g => ?_
    exact congrArg AccessFlags.mk (Nat.zero_and g)
  rw [hzero]
  cases (if f ∈ xs then f else AccessFlags.None) with | mk g => ?_
  exact congrArg AccessFlags.mk (Nat.zero_or g)

/-- C14: for every list of named `Buffer::BindFlags` values combined with
`operator|` from left to right (`None` for the empty list; every subset of
the named flags is such a list, in any order) and every named flag `f`,
`(combined & f) == f` if `f` is in the list and `(combined & f) == None`
otherwise; the same holds for the named `Buffer::AccessFlags` values
`Dynamic`, `MapRead`, `MapWrite`. -/
theorem C14_named_flags_membership_exact :
    (∀ (xs : List BindFlags) (f : BindFlags),
        (∀ x ∈ xs, x ∈ BindFlags.named) → f ∈ BindFlags.named →
        ((f ∈ xs → (BindFlags.combine xs).and f = f)
          ∧ (f ∉ xs → (BindFlags.combine xs).and f = BindFlags.None)))
    ∧ (∀ (xs : List AccessFlags) (f : AccessFlags),
        (∀ x ∈ xs, x ∈ AccessFlags.named) → f ∈ AccessFlags.named →
        ((f ∈ xs → (AccessFlags.combine xs).and f = f)
          ∧ (f ∉ xs → (AccessFlags.combine xs).and f = AccessFlags.None))) := by
  constructor
  · intro xs f hxs hf
    rw [bindFlags_combine_and xs f hxs hf]
    exact ⟨fun h => if_pos h, fun h => if_neg h⟩
  · intro xs f hxs hf
    rw [accessFlags_combine_and xs f hxs hf]
    exact ⟨fun h => if_pos h, fun h => if_neg h⟩

/-- C14 at concrete combinations: `Vertex | ShaderResource | UnorderedAccess`
holds `ShaderResource` and does not hold `Index`; `Dynamic | MapWrite` holds
`MapWrite` and does not hold `MapRead`. -/
theorem C14_named_flags_witness :
    (BindFlags.combine [BindFlags.Vertex, BindFlags.ShaderResource,
        BindFlags.UnorderedAccess]).bits = 0x89
    ∧ (BindFlags.combine [BindFlags.Vertex, BindFlags.ShaderResource,
        BindFlags.UnorderedAccess]).and BindFlags.ShaderResource = BindFlags.ShaderResource
    ∧ (BindFlags.combine [BindFlags.Vertex, BindFlags.ShaderResource,
        BindFlags.UnorderedAccess]).and BindFlags.Index = BindFlags.None
    ∧ (AccessFlags.combine [AccessFlags.Dynamic, AccessFlags.MapWrite]).and AccessFlags.MapWrite
        = AccessFlags.MapWrite
    ∧ (AccessFlags.combine [AccessFlags.Dynamic, AccessFlags.MapWrite]).and AccessFlags.MapRead
        = AccessFlags.None :=
  ⟨by decide,
   (C14_named_flags_membership_exact.1 _ BindFlags.ShaderResource (by decide) (by decide)).1
     (by decide),
   (C14_named_flags_membership_exact.1 _ BindFlags.Index (by decide) (by decide)).2
     (by decide),
   (C14_named_flags_membership_exact.2 _ AccessFlags.MapWrite (by decide) (by decide)).1
     (by decide),
   (C14_named_flags_membership_exact.2 _ AccessFlags.MapRead (by decide) (by decide)).2
     (by decide)⟩

end Falcor
